import Mathlib

set_option maxRecDepth 8000

/-!
Shallow embedding of the Meeting Detection & Calendar Reconciliation Engine
of the whatsapp-calendar-audit repository.  The definitions below are
translated from `keyword-detector.js`, `llm-analyzer.js` and the standalone
audit runner (`analyzeConflictsAndMissing`, `sendComprehensiveSummary`,
`getRecentMessages`).  JavaScript `Date` values are represented by their
local calendar day as a count of days since 1970-01-01; machine floats for
confidences are represented exactly as rationals (all weights are decimal
fractions, so no rounding is lost).
-/

/-- ASCII lower-casing of one character.  Models `String.prototype.toLowerCase`
on the character sets appearing in this code base (ASCII letters and Hebrew;
Hebrew letters have no case and are left unchanged). -/
def asciiLower (c : Char) : Char :=
  if 'A' ≤ c ∧ c ≤ 'Z' then Char.ofNat (c.toNat + 32) else c

/-- Lower-case a character list. -/
def lowerL (cs : List Char) : List Char := cs.map asciiLower

/-- Lower-case a string. -/
def asciiLowerStr (s : String) : String := ⟨lowerL s.data⟩

/-- Boolean prefix test on character lists. -/
def prefixB : List Char → List Char → Bool
  | [], _ => true
  | _ :: _, [] => false
  | a :: as, b :: bs => a == b && prefixB as bs

/-- Boolean substring (infix) test on character lists. -/
def infixB (needle : List Char) : List Char → Bool
  | [] => prefixB needle []
  | c :: cs => prefixB needle (c :: cs) || infixB needle cs

/-- `hay.includes(needle)` of JavaScript. -/
def containsStr (hay needle : String) : Bool := infixB needle.data hay.data

/-- Case-insensitive containment, modelling `/pat/i.test(s)` for a literal
pattern. -/
def ciContains (s pat : String) : Bool :=
  infixB (lowerL pat.data) (lowerL s.data)

/-- JavaScript `\s` on the characters that occur here. -/
def isWsC (c : Char) : Bool := c == ' ' || c == '\t' || c == '\n' || c == '\r'

/-- `String.prototype.trim` on a character list. -/
def trimL (cs : List Char) : List Char :=
  ((cs.dropWhile fun c => isWsC c).reverse.dropWhile fun c => isWsC c).reverse

/-- `String.prototype.trim`. -/
def jsTrim (s : String) : String := ⟨trimL s.data⟩

/-- `[...new Set(xs)]`: deduplication keeping first occurrences. -/
def dedupFirstGo (seen : List String) : List String → List String
  | [] => []
  | x :: xs => if seen.contains x then dedupFirstGo seen xs
               else x :: dedupFirstGo (x :: seen) xs

/-- `[...new Set(xs)]` over strings. -/
def dedupFirst (l : List String) : List String := dedupFirstGo [] l

/-- Decimal digit test (`\d`). -/
def isDigitC (c : Char) : Bool := '0' ≤ c && c ≤ '9'

/-- Value of a list of decimal digits. -/
def digitsVal (cs : List Char) : Nat :=
  cs.foldl (fun a c => a * 10 + (c.toNat - '0'.toNat)) 0

/-- JavaScript `parseInt` (radix 10): leading whitespace, optional sign, then
digits; `none` models `NaN`. -/
def parseIntJS (s : String) : Option Int :=
  let cs := s.data.dropWhile isWsC
  match cs with
  | '-' :: rest =>
      let ds := rest.takeWhile isDigitC
      if ds.isEmpty then none else some (-(digitsVal ds : Int))
  | '+' :: rest =>
      let ds := rest.takeWhile isDigitC
      if ds.isEmpty then none else some (digitsVal ds : Int)
  | _ =>
      let ds := cs.takeWhile isDigitC
      if ds.isEmpty then none else some (digitsVal ds : Int)

/-- `String(n).padStart(2, '0')` for minute values. -/
def pad2 (n : Nat) : String := if n < 10 then "0" ++ toString n else toString n

/-- `getHours() + ':' + String(getMinutes()).padStart(2, '0')` — the event
time string built by the matcher (hours unpadded, minutes padded). -/
def fmtTime (h mi : Nat) : String := toString h ++ ":" ++ pad2 mi

/-- `s.replace(/[^\d:]/g, '')`. -/
def keepDigitsColon (s : String) : String :=
  ⟨s.data.filter fun c => isDigitC c || c == ':'⟩

/-- The loose time comparison of `analyzeConflictsAndMissing`:
`meetingTimeStr.includes(eventTime) ||
 eventTime.includes(meetingTimeStr.replace(/[^\d:]/g, ''))`. -/
def timeMatchB (meetingTimeStr eventTime : String) : Bool :=
  containsStr meetingTimeStr eventTime ||
  containsStr eventTime (keepDigitsColon meetingTimeStr)

/-- Days since 1970-01-01 of the civil date `y-m-d` (month `1..12`), the
standard civil-from-days algorithm used to model JavaScript local `Date`
values at day granularity. -/
def daysFromCivil (y m d : Int) : Int :=
  let y := if m ≤ 2 then y - 1 else y
  let era := Int.fdiv y 400
  let yoe := y - era * 400
  let mp := Int.emod (m + 9) 12
  let doy := (153 * mp + 2) / 5 + d - 1
  let doe := yoe * 365 + yoe / 4 - yoe / 100 + doy
  era * 146097 + doe - 719468

/-- `new Date(year, month, day)` with 0-based `month`, as a day count: the
month is normalised into the year and the (possibly out-of-range) day is an
offset from day 1 of that month.  This is exactly JavaScript's rollover
normalisation; the construction never fails for integer arguments. -/
def newDateJS (y m d : Int) : Int :=
  daysFromCivil (y + Int.fdiv m 12) (Int.emod m 12 + 1) 1 + (d - 1)

/-- `Date.prototype.getDay`: 0 = Sunday … 6 = Saturday
(1970-01-01 was a Thursday, day 4). -/
def getDayJS (day : Int) : Int := (day + 4) % 7

/-- `KeywordDetector.getNextWeekday` of `keyword-detector.js` (lines
230-243), with "now" passed explicitly as a day count. -/
def getNextWeekday (targetDay now : Int) : Int :=
  let currentDay := getDayJS now
  let daysUntilTarget := targetDay - currentDay
  let daysUntilTarget :=
    if daysUntilTarget ≤ 0 then daysUntilTarget + 7 else daysUntilTarget
  now + daysUntilTarget

/-- Fuel-driven body of `scanWith`; every matcher used here matches at
least one character, so fuel equal to the input length is enough and the
fuel never runs out before the input does. -/
def scanWithGo (matchAt : List Char → Option Nat) :
    Nat → List Char → List (List Char)
  | 0, _ => []
  | _ + 1, [] => []
  | f + 1, c :: cs =>
    match matchAt (c :: cs) with
    | some n => (c :: cs).take n :: scanWithGo matchAt f (cs.drop (n - 1))
    | none => scanWithGo matchAt f cs

/-- Global (`/g`) regex-style scan: at each position try `matchAt`; on a
match of length `n` emit the matched slice and continue after it, otherwise
advance one character. -/
def scanWith (matchAt : List Char → Option Nat) (cs : List Char) :
    List (List Char) :=
  scanWithGo matchAt cs.length cs

/-- Positionwise matcher for a case-insensitive literal alternation
`(a1|a2|…)`, trying the alternatives in their written order. -/
def altMatchAt (alts : List (List Char)) (cs : List Char) : Option Nat :=
  (alts.find? fun a => prefixB (lowerL a) (lowerL (cs.take a.length))).map
    List.length

/-- All matches of a case-insensitive literal alternation in `s`. -/
def scanAltsCI (alts : List String) (s : String) : List String :=
  (scanWith (altMatchAt (alts.map String.data)) s.data).map fun cs =>
    (⟨cs⟩ : String)

/-- Does the list start with exactly `k` digits? -/
def takeDigits (k : Nat) (cs : List Char) : Bool :=
  (cs.take k).length == k && (cs.take k).all isDigitC

/-- One backtracking attempt of `\d{l1} sep \d{l2} sep \d{2,4}` at the head
of `cs`; returns the matched length. -/
def numDateAt3 (sepOk : Char → Bool) (cs : List Char) (l1 l2 : Nat) :
    Option Nat :=
  if takeDigits l1 cs then
    match cs.drop l1 with
    | s1 :: rest1 =>
      if sepOk s1 && takeDigits l2 rest1 then
        match rest1.drop l2 with
        | s2 :: rest2 =>
          if sepOk s2 then
            let run := (rest2.takeWhile isDigitC).length
            if run ≥ 2 then some (l1 + 1 + l2 + 1 + min run 4) else none
          else none
        | [] => none
      else none
    | [] => none
  else none

/-- `\d{1,2} sep \d{1,2} sep \d{2,4}` at the head of `cs`, with the greedy
backtracking order of the regex engine (longer digit groups first). -/
def numDateAt (sepOk : Char → Bool) (cs : List Char) : Option Nat :=
  ((numDateAt3 sepOk cs 2 2).orElse fun _ =>
    (numDateAt3 sepOk cs 2 1).orElse fun _ =>
      (numDateAt3 sepOk cs 1 2).orElse fun _ => numDateAt3 sepOk cs 1 1)

/-- Does `matchAt` succeed at some position of the list? (`regex.test`). -/
def anyMatch (matchAt : List Char → Option Nat) : List Char → Bool
  | [] => (matchAt []).isSome
  | c :: cs => (matchAt (c :: cs)).isSome || anyMatch matchAt cs

/-- The separator class `[\/\-\.]`. -/
def sepClass (c : Char) : Bool := c == '/' || c == '-' || c == '.'

/-- Split a character list at every character satisfying `p`, keeping empty
parts (JavaScript `String.prototype.split` on a character class). -/
def splitOnC (p : Char → Bool) : List Char → List (List Char)
  | [] => [[]]
  | c :: cs =>
    if p c then [] :: splitOnC p cs
    else
      match splitOnC p cs with
      | part :: parts => (c :: part) :: parts
      | [] => [[c]]

/-- `(am|pm|AM|PM)` at the head (case-sensitive, exactly the four written
alternatives). -/
def ampmAt (cs : List Char) : Option Nat :=
  if prefixB ['a', 'm'] cs || prefixB ['p', 'm'] cs ||
     prefixB ['A', 'M'] cs || prefixB ['P', 'M'] cs then some 2 else none

/-- `\s?` (greedy) followed by `inner`. -/
def wsOptThen (inner : List Char → Option Nat) (cs : List Char) :
    Option Nat :=
  match cs with
  | c :: rest => if isWsC c then (inner rest).map (· + 1) else inner (c :: rest)
  | [] => inner []

/-- Time pattern 1: `\d{1,2}:\d{2}(\s?(am|pm|AM|PM))?` at the head. -/
def timeAt1 (cs : List Char) : Option Nat :=
  let core := fun (l1 : Nat) =>
    if takeDigits l1 cs then
      match cs.drop l1 with
      | ':' :: rest =>
        if takeDigits 2 rest then
          let base := l1 + 3
          match wsOptThen ampmAt (rest.drop 2) with
          | some k => some (base + k)
          | none => some base
        else none
      | _ => none
    else none
  (core 2).orElse fun _ => core 1

/-- Time pattern 2: `\d{1,2}\s?(am|pm|AM|PM)` at the head. -/
def timeAt2 (cs : List Char) : Option Nat :=
  let core := fun (l1 : Nat) =>
    if takeDigits l1 cs then
      (wsOptThen ampmAt (cs.drop l1)).map (l1 + ·)
    else none
  (core 2).orElse fun _ => core 1

/-- Time pattern 4: `(\d{1,2})\s?(בבוקר|בצהריים|בערב|אחה"צ)` at the head. -/
def timeAt4 (cs : List Char) : Option Nat :=
  let hebAlt := altMatchAt (["בבוקר", "בצהריים", "בערב", "אחה\"צ"].map
    String.data)
  let core := fun (l1 : Nat) =>
    if takeDigits l1 cs then (wsOptThen hebAlt (cs.drop l1)).map (l1 + ·)
    else none
  (core 2).orElse fun _ => core 1

/-- The character class `[A-Za-z֐-׿\s]` of the name patterns. -/
def nameClassC (c : Char) : Bool :=
  ('A' ≤ c && c ≤ 'Z') || ('a' ≤ c && c ≤ 'z') ||
  (0x590 ≤ c.toNat && c.toNat ≤ 0x5FF) || isWsC c

/-- Name patterns 1/2: `word\s+([A-Za-z֐-׿\s]+)` at the head
(case-insensitive `word`, class greedy; since the class contains `\s`, a
match needs the run after the word to start with whitespace and contain at
least two characters). -/
def withNameAt (word : List Char) (cs : List Char) : Option Nat :=
  if prefixB (lowerL word) (lowerL (cs.take word.length)) then
    let rest := cs.drop word.length
    let run := rest.takeWhile nameClassC
    match run with
    | r0 :: _ =>
      if isWsC r0 && run.length ≥ 2 then some (word.length + run.length)
      else none
    | [] => none
  else none

def isUpperAZ (c : Char) : Bool := 'A' ≤ c && c ≤ 'Z'

def isLowerAZ (c : Char) : Bool := 'a' ≤ c && c ≤ 'z'

/-- Name pattern 3: `([A-Z][a-z]+\s+[A-Z][a-z]+)` at the head. -/
def capPairAt (cs : List Char) : Option Nat :=
  match cs with
  | c :: rest =>
    if isUpperAZ c then
      let l1 := (rest.takeWhile isLowerAZ).length
      if l1 ≥ 1 then
        let afterWord := rest.drop l1
        let wsRun := (afterWord.takeWhile isWsC).length
        if wsRun ≥ 1 then
          match afterWord.drop wsRun with
          | c2 :: rest2 =>
            if isUpperAZ c2 then
              let l2 := (rest2.takeWhile isLowerAZ).length
              if l2 ≥ 1 then some (1 + l1 + wsRun + 1 + l2) else none
            else none
          | [] => none
        else none
      else none
    else none
  | [] => none

/-- Hebrew letters `[א-ת]`. -/
def isHebLetter (c : Char) : Bool := 0x5D0 ≤ c.toNat && c.toNat ≤ 0x5EA

/-- Name pattern 4: `([א-ת]+\s+[א-ת]+)` at the head. -/
def hebPairAt (cs : List Char) : Option Nat :=
  let l1 := (cs.takeWhile isHebLetter).length
  if l1 ≥ 1 then
    let afterWord := cs.drop l1
    let wsRun := (afterWord.takeWhile isWsC).length
    if wsRun ≥ 1 then
      let l2 := ((afterWord.drop wsRun).takeWhile isHebLetter).length
      if l2 ≥ 1 then some (l1 + wsRun + l2) else none
    else none
  else none

/-- `KeywordDetector.extractDates` (keyword-detector.js lines 134-145): all
matches of the seven date patterns, deduplicated keeping first occurrence. -/
def extractDates (text : String) : List String :=
  let cs := text.data
  let p1 := (scanWith (numDateAt (· == '/')) cs).map fun l => (⟨l⟩ : String)
  let p2 := (scanWith (numDateAt (· == '-')) cs).map fun l => (⟨l⟩ : String)
  let p3 := (scanWith (numDateAt (· == '.')) cs).map fun l => (⟨l⟩ : String)
  let p4 := scanAltsCI ["tomorrow", "today", "מחר", "היום"] text
  let p5 := scanAltsCI ["monday", "tuesday", "wednesday", "thursday",
    "friday", "saturday", "sunday"] text
  let p6 := scanAltsCI ["ראשון", "שני", "שלישי", "רביעי", "חמישי", "שישי",
    "שבת"] text
  let p7 := scanAltsCI ["next week", "השבוע הבא", "השבוע"] text
  dedupFirst (p1 ++ p2 ++ p3 ++ p4 ++ p5 ++ p6 ++ p7)

/-- `KeywordDetector.extractTimes` (keyword-detector.js lines 147-158). -/
def extractTimes (text : String) : List String :=
  let cs := text.data
  let p1 := (scanWith timeAt1 cs).map fun l => (⟨l⟩ : String)
  let p2 := (scanWith timeAt2 cs).map fun l => (⟨l⟩ : String)
  let p3 := scanAltsCI ["morning", "afternoon", "evening", "בוקר", "צהריים",
    "אחר הצהריים", "ערב"] text
  let p4 := (scanWith timeAt4 cs).map fun l => (⟨l⟩ : String)
  dedupFirst (p1 ++ p2 ++ p3 ++ p4)

/-- `match.replace(/^(with|עם)\s+/i, '')`. -/
def stripWithEm (cs : List Char) : List Char :=
  let tryWord := fun (w : List Char) =>
    if prefixB (lowerL w) (lowerL (cs.take w.length)) then
      let rest := cs.drop w.length
      let k := (rest.takeWhile isWsC).length
      if k ≥ 1 then some (rest.drop k) else none
    else none
  match tryWord "with".data with
  | some r => r
  | none =>
    match tryWord "עם".data with
    | some r => r
    | none => cs

/-- The per-match cleanup of `extractNames`: strip the leading
`with`/`עם`, trim, and keep only names longer than 2 characters. -/
def cleanNameJS (s : String) : Option String :=
  let c : String := ⟨trimL (stripWithEm s.data)⟩
  if c.data.length > 2 then some c else none

/-- `KeywordDetector.extractNames` (keyword-detector.js lines 160-176). -/
def extractNames (text : String) : List String :=
  let cs := text.data
  let p1 := (scanWith (withNameAt "with".data) cs).map fun l =>
    (⟨l⟩ : String)
  let p2 := (scanWith (withNameAt "עם".data) cs).map fun l => (⟨l⟩ : String)
  let p3 := (scanWith capPairAt cs).map fun l => (⟨l⟩ : String)
  let p4 := (scanWith hebPairAt cs).map fun l => (⟨l⟩ : String)
  dedupFirst ((p1 ++ p2 ++ p3 ++ p4).filterMap cleanNameJS)

/-- `KeywordDetector.hebrewKeywords` (keyword-detector.js lines 4-22),
verbatim, duplicates included (`filter` counts each list entry). -/
def hebrewKeywords : List String := [
  "פגישה", "מפגש", "פגישת", "נפגש", "להיפגש",
  "מינוי", "תור", "זמן", "מחר", "היום",
  "שעה", "בוקר", "צהריים", "אחר הצהריים", "ערב",
  "ראשון", "שני", "שלישי", "רביעי", "חמישי", "שישי", "שבת",
  "ביום", "תאריך", "מועד", "נקבע", "קובעים", "לקבוע", "לתאם", "לזמן",
  "טיפול", "אוסתאופתיה", "אוסתאופטיה", "כאב", "גב",
  "רופא", "דוקטור", "קליניקה", "בדיקה", "תור",
  "בסדר", "מוכן", "מוכנה", "טוב", "נהדר", "מושלם", "אוקיי",
  "מסכים", "מסכימה", "נפלא", "יופי", "סבבה", "תמים",
  "נפגשים", "נפגש", "נפגשת", "ניפגש", "להיפגש", "נפגישה",
  "אנחנו", "יהיה", "יכול", "יכולה", "נוכל", "בואו", "תן", "תני",
  "מתאים", "מתאימה", "נוח", "נוחה", "אפשר", "אפשרי",
  "אצל", "בבית", "במשרד", "בקליניקה", "שם", "פה", "כאן",
  "ב-", "את", "של", "עם", "אחרי", "לפני", "במקום"]

/-- `KeywordDetector.englishKeywords` (keyword-detector.js lines 24-38),
verbatim, duplicates included. -/
def englishKeywords : List String := [
  "meeting", "meet", "appointment", "schedule", "scheduled", "planned",
  "today", "tomorrow", "monday", "tuesday", "wednesday", "thursday",
  "friday", "saturday", "sunday",
  "morning", "afternoon", "evening", "night", "am", "pm",
  "time", "date", "when", "at", "on", "call", "visit",
  "doctor", "clinic", "checkup", "treatment", "therapy", "osteopath",
  "set", "confirmed", "good", "sounds", "okay", "ok", "ready", "fine",
  "perfect", "great",
  "awesome", "cool", "works", "done", "agreed", "yes", "yep", "sure",
  "absolutely",
  "we", "were", "are", "lets", "let\x27s", "can", "will", "shall", "could",
  "should",
  "see", "meet", "there", "here", "place", "location", "where", "when",
  "then", "so", "but", "and", "the", "for", "with", "at", "in", "on"]

/-- `LLMAnalyzer`'s verdict record (the object shape returned by
`parseAnalysisResponse` / `getFallbackResult`).  `confidence` is on the
0-100 scale. -/
structure LLMResult where
  isValidMeeting : Bool
  confidence : ℚ
  extractedDateTime : Option String := none
  extractedLocation : Option String := none
  extractedParticipants : Option (List String) := none
  meetingType : Option String := none
  reasoning : String
deriving DecidableEq, Repr

/-- The detection record built by `KeywordDetector.analyzeMessage`
(keyword-detector.js lines 118-131), plus the `llmAnalysis`/`llmDateTime`
fields attached later by `enhanceWithLLMAnalysis`.  `parsedDates` are
calendar days (day counts); `confidence` is the heuristic score in [0,1]. -/
structure Meeting where
  id : String := ""
  messageId : String := ""
  chatId : String := ""
  senderName : String := ""
  extractedText : String := ""
  detectedKeywords : List String := []
  detectedDate : Option String := none
  detectedTime : Option String := none
  detectedNames : Option (List String) := none
  parsedDates : List Int := []
  confidence : ℚ := 0
  timestamp : Int := 0
  llmAnalysis : Option LLMResult := none
  llmDateTime : Option String := none
deriving DecidableEq, Repr

/-- One WhatsApp message as handed to the detector. -/
structure WAMessage where
  id : String := "msg"
  chatId : String := ""
  senderName : String := ""
  senderId : String := ""
  text : String
  timestamp : Int := 0
deriving DecidableEq, Repr

/-- `KeywordDetector.calculateConfidence` of keyword-detector.js (lines
245-261): weights 0.3 / 0.25 / 0.2 / 0.1 with caps 0.6 / 0.4 / 0.3 / 0.2,
summed and clamped at 1. -/
def calculateConfidence (keywordMatches dateMatches timeMatches nameMatches :
    Nat) : ℚ :=
  let confidence : ℚ := 0
  let confidence := confidence + min ((keywordMatches : ℚ) * (3/10)) (3/5)
  let confidence := confidence + min ((dateMatches : ℚ) * (1/4)) (2/5)
  let confidence := confidence + min ((timeMatches : ℚ) * (1/5)) (3/10)
  let confidence := confidence + min ((nameMatches : ℚ) * (1/10)) (1/5)
  min confidence 1

/-- `KeywordDetector.calculateConfidence` of src/utils/keywordDetector.ts
(lines 181-195): the divergent variant with weights 0.3 / 0.2 / 0.15 / 0.1
and the same caps. -/
def calculateConfidenceTS (keywordMatches dateMatches timeMatches
    nameMatches : Nat) : ℚ :=
  let confidence : ℚ := 0
  let confidence := confidence + min ((keywordMatches : ℚ) * (3/10)) (3/5)
  let confidence := confidence + min ((dateMatches : ℚ) * (1/5)) (2/5)
  let confidence := confidence + min ((timeMatches : ℚ) * (3/20)) (3/10)
  let confidence := confidence + min ((nameMatches : ℚ) * (1/10)) (1/5)
  min confidence 1

/-- `/\d{1,2}[\/\-\.]\d{1,2}[\/\-\.]\d{2,4}/.test(dateStr)` — the numeric
branch guard of `parseDates` (mixed separators allowed in the test). -/
def numDateTestB (s : String) : Bool := anyMatch (numDateAt sepClass) s.data

/-- The body of the per-token loop of `KeywordDetector.parseDates`
(keyword-detector.js lines 182-224), with "now" passed as a day count:
relative markers, named weekdays (with the source's own token → weekday
mapping), then `DD/MM/YYYY` numeric parsing through `new Date`; `none`
models a token for which `targetDate` stays null or invalid and is
therefore dropped. -/
def parseOneDate (now : Int) (dateStr : String) : Option Int :=
  if ciContains dateStr "tomorrow" || ciContains dateStr "מחר" then
    some (now + 1)
  else if ciContains dateStr "today" || ciContains dateStr "היום" then
    some now
  else if ciContains dateStr "monday" || ciContains dateStr "ראשון" then
    some (getNextWeekday 1 now)
  else if ciContains dateStr "tuesday" || ciContains dateStr "שני" then
    some (getNextWeekday 2 now)
  else if ciContains dateStr "wednesday" || ciContains dateStr "שלישי" then
    some (getNextWeekday 3 now)
  else if ciContains dateStr "thursday" || ciContains dateStr "רביעי" then
    some (getNextWeekday 4 now)
  else if ciContains dateStr "friday" || ciContains dateStr "חמישי" then
    some (getNextWeekday 5 now)
  else if ciContains dateStr "saturday" || ciContains dateStr "שישי" then
    some (getNextWeekday 6 now)
  else if ciContains dateStr "sunday" || ciContains dateStr "שבת" then
    some (getNextWeekday 0 now)
  else if numDateTestB dateStr then
    let parts := splitOnC sepClass dateStr.data
    if parts.length ≥ 3 then
      match parseIntJS ⟨parts.getD 0 []⟩, parseIntJS ⟨parts.getD 1 []⟩,
        parseIntJS ⟨parts.getD 2 []⟩ with
      | some day, some month, some year =>
        some (newDateJS (if year < 100 then 2000 + year else year)
          (month - 1) day)
      | _, _, _ => none
    else none
  else none

/-- `KeywordDetector.parseDates` (keyword-detector.js lines 178-228):
resolve every token, silently dropping the ones that produce no valid
date. -/
def parseDates (now : Int) (dateStrings : List String) : List Int :=
  dateStrings.filterMap (parseOneDate now)

/-- `KeywordDetector.analyzeMessage` (keyword-detector.js lines 79-132),
with "now" passed as the day count `today`.  The `Date.now()` suffix of the
generated `id` is nondeterministic and unused downstream, so `id` is
modelled as the message id alone. -/
def analyzeMessage (today : Int) (message : WAMessage) : Option Meeting :=
  let text := asciiLowerStr message.text
  let originalText := message.text
  if (jsTrim text).data.isEmpty then none else
  let hebrewMatches := hebrewKeywords.filter fun keyword =>
    containsStr text (asciiLowerStr keyword)
  let englishMatches := englishKeywords.filter fun keyword =>
    containsStr text (asciiLowerStr keyword)
  let totalMatches := hebrewMatches.length + englishMatches.length
  if totalMatches == 0 then none else
  let detectedDates := extractDates originalText
  let detectedTimes := extractTimes originalText
  let detectedNames := extractNames originalText
  let confidence := calculateConfidence totalMatches detectedDates.length
    detectedTimes.length detectedNames.length
  if confidence < 1/10 then none else
  let parsedDates := parseDates today detectedDates
  some {
    id := message.id
    messageId := message.id
    chatId := message.chatId
    senderName := if message.senderName ≠ "" then message.senderName
      else message.senderId
    extractedText := originalText
    detectedKeywords := hebrewMatches ++ englishMatches
    detectedDate := detectedDates.head?
    detectedTime := detectedTimes.head?
    detectedNames := if detectedNames.length > 0 then some detectedNames
      else none
    parsedDates := parsedDates
    confidence := confidence
    timestamp := message.timestamp }

/-- `KeywordDetector.detectMeetings` (keyword-detector.js lines 65-77). -/
def detectMeetings (today : Int) (messages : List WAMessage) : List Meeting :=
  messages.filterMap (analyzeMessage today)

/-- `Math.round`: round half toward positive infinity. -/
def jsRound (q : ℚ) : Int := ⌊q + 1/2⌋

/-- `LLMAnalyzer.getFallbackResult` (llm-analyzer.js lines 208-217): the
deterministic verdict used when the oracle is disabled or fails. -/
def getFallbackResult (detectedMeeting : Meeting) : LLMResult :=
  let hasDateTime := detectedMeeting.detectedDate.isSome ||
    detectedMeeting.detectedTime.isSome
  let confidence := jsRound (detectedMeeting.confidence * 100)
  { isValidMeeting := hasDateTime && decide (confidence > 30)
    confidence := (confidence : ℚ)
    reasoning :=
      "Claude analysis unavailable, using fallback keyword detection" }

/-- `enhanceWithLLMAnalysis` (part_000 lines 515-558) specialised to a
disabled oracle, where `analyzeConversation` short-circuits to
`getFallbackResult` for every candidate (the conversation context is built
but unused on that path).  Candidates the verdict rejects are dropped;
accepted ones carry the verdict and any oracle-extracted fields. -/
def enhanceDisabled (keywordDetections : List Meeting) : List Meeting :=
  keywordDetections.filterMap fun detection =>
    let llmResult := getFallbackResult detection
    let detection := { detection with llmAnalysis := some llmResult }
    if llmResult.isValidMeeting && decide (llmResult.confidence > 50) then
      some { detection with
        llmDateTime := match llmResult.extractedDateTime with
          | some s => some s
          | none => detection.llmDateTime }
    else none

/-- One calendar event as seen by the matcher.  `startDay` is the local
calendar day of `new Date(event.start.dateTime || event.start.date)`;
`startTime` is `(getHours(), getMinutes())` when `event.start.dateTime` is
present and `none` for date-only (all-day) events. -/
structure CalendarEvent where
  id : String := ""
  summary : String := ""
  startDay : Int
  startTime : Option (Nat × Nat) := none
deriving DecidableEq, Repr

/-- One entry of the `conflicts` / `confirmedMeetings` arrays of
`analyzeConflictsAndMissing`. -/
structure MatchEntry where
  meeting : Meeting
  event : CalendarEvent
  reason : String
deriving DecidableEq, Repr

/-- One entry of the `missingEvents` array. -/
structure MissingEntry where
  meeting : Meeting
  reason : String
deriving DecidableEq, Repr

/-- The result record of `analyzeConflictsAndMissing`. -/
structure AuditOutput where
  conflicts : List MatchEntry
  missingEvents : List MissingEntry
  confirmedMeetings : List MatchEntry
deriving DecidableEq, Repr

/-- The day-match inner branch of the plain `analyzeConflictsAndMissing`
(part_000 lines 810-843): `true` = push on `confirmedMeetings`, `false` =
push on `conflicts`, with the reason string recorded there.  The decision
depends only on the meeting's detected time and the event's start time. -/
def classifyPlain (m : Meeting) (e : CalendarEvent) : Bool × String :=
  match m.detectedTime, e.startTime with
  | some t, some (h, mi) =>
    if timeMatchB (asciiLowerStr t) (fmtTime h mi) then
      (true, "Time and date match")
    else (false, "Same day, potentially conflicting time")
  | _, _ => (true, "Date match, time unclear")

/-- The pushes generated for one meeting by the event/date double loop of
the plain `analyzeConflictsAndMissing` (part_000 lines 802-846): one push
per event per parsed date equal to the event's day, in loop order. -/
def entriesPlain (m : Meeting) : List CalendarEvent →
    List (CalendarEvent × Bool × String)
  | [] => []
  | e :: es =>
    ((m.parsedDates.filter fun d => d == e.startDay).map fun _ =>
      (e, classifyPlain m e)) ++ entriesPlain m es

/-- `qToStr` renders an integral rational the way JavaScript template
interpolation renders the corresponding number. -/
def qToStr (q : ℚ) : String :=
  if q.den == 1 then toString q.num
  else toString q.num ++ "/" ++ toString q.den

/-- The per-meeting body of the plain `analyzeConflictsAndMissing`
(part_000 lines 797-855): all pushes from the event loop, split into the
two arrays, plus the missing-event decision gated by
`!foundMatch && !foundConflict && meeting.confidence > 0.4`. -/
def auditOnePlain (m : Meeting) (events : List CalendarEvent) : AuditOutput :=
  let pushes := entriesPlain m events
  let confirmed := (pushes.filter fun p => p.2.1).map fun p =>
    MatchEntry.mk m p.1 p.2.2
  let conflicts := (pushes.filter fun p => !p.2.1).map fun p =>
    MatchEntry.mk m p.1 p.2.2
  let foundMatch := pushes.any fun p => p.2.1
  let foundConflict := pushes.any fun p => !p.2.1
  { conflicts := conflicts
    missingEvents :=
      if !foundMatch && !foundConflict && decide (m.confidence > 2/5) then
        [MissingEntry.mk m "High confidence meeting not found in calendar"]
      else []
    confirmedMeetings := confirmed }

/-- `analyzeConflictsAndMissing` (part_000 lines 792-862, the variant
without oracle enrichment): the outer meeting loop, concatenating each
meeting's pushes in order. -/
def analyzeConflictsAndMissing (detectedMeetings : List Meeting)
    (calendarEvents : List CalendarEvent) : AuditOutput :=
  match detectedMeetings with
  | [] => ⟨[], [], []⟩
  | m :: ms =>
    let o := auditOnePlain m calendarEvents
    let rest := analyzeConflictsAndMissing ms calendarEvents
    ⟨o.conflicts ++ rest.conflicts,
     o.missingEvents ++ rest.missingEvents,
     o.confirmedMeetings ++ rest.confirmedMeetings⟩

/-- Whether a year is a Gregorian leap year. -/
def isLeapJS (y : Int) : Bool :=
  (Int.emod y 4 == 0 && Int.emod y 100 != 0) || Int.emod y 400 == 0

/-- Days in a (1-based) month. -/
def daysInMonthJS (y m : Int) : Int :=
  if m == 2 then (if isLeapJS y then 29 else 28)
  else if m == 4 || m == 6 || m == 9 || m == 11 then 30 else 31

/-- `new Date(s)` for the strings the oracle is instructed to emit
(`"YYYY-MM-DD"` or `"YYYY-MM-DD HH:MM"`), as (day count, hours, minutes);
`none` models an invalid date.  Other free-form strings accepted by the
JavaScript date parser are not modelled; the time-zone offset is assumed
non-negative so the date-only (UTC) form keeps its calendar day locally. -/
def jsNewDateStr (s : String) : Option (Int × Nat × Nat) :=
  let checkDate := fun (dpart : List Char) =>
    match splitOnC (· == '-') dpart with
    | [ys, ms, ds] =>
      if ys.length == 4 && ms.length == 2 && ds.length == 2 &&
         ys.all isDigitC && ms.all isDigitC && ds.all isDigitC then
        let y : Int := (digitsVal ys : Int)
        let mo : Int := (digitsVal ms : Int)
        let d : Int := (digitsVal ds : Int)
        if 1 ≤ mo ∧ mo ≤ 12 ∧ 1 ≤ d ∧ d ≤ daysInMonthJS y mo then
          some (daysFromCivil y mo d)
        else none
      else none
    | _ => none
  match splitOnC (· == ' ') s.data with
  | [dpart] => (checkDate dpart).map fun day => (day, 0, 0)
  | [dpart, tpart] =>
    match checkDate dpart, splitOnC (· == ':') tpart with
    | some day, [hs, mis] =>
      if hs.length == 2 && mis.length == 2 && hs.all isDigitC &&
         mis.all isDigitC && digitsVal hs ≤ 23 && digitsVal mis ≤ 59 then
        some (day, digitsVal hs, digitsVal mis)
      else none
    | _, _ => none
  | _ => none

/-- The meeting-date selection of the oracle-aware
`analyzeConflictsAndMissing` (part_000 lines 352-369): the parsed
`llmDateTime` day when present and valid, else the keyword-parsed dates. -/
def meetingDatesLLM (m : Meeting) : List Int :=
  let fromLLM : List Int :=
    match m.llmDateTime with
    | some s =>
      match jsNewDateStr s with
      | some dt => [dt.1]
      | none => []
    | none => []
  if fromLLM.length == 0 ∧ m.parsedDates.length > 0 then m.parsedDates
  else fromLLM

/-- The meeting-time selection of the oracle-aware variant (part_000 lines
376-394): the `llmDateTime` wall-clock time when the string parses and
contains a colon, else the lower-cased detected time token, else none. -/
def mtfcLLM (m : Meeting) : Option String :=
  let fromLLM : Option String :=
    match m.llmDateTime with
    | some s =>
      match jsNewDateStr s with
      | some dt =>
        if s.data.contains ':' then some (fmtTime dt.2.1 dt.2.2) else none
      | none => none
    | none => none
  match fromLLM with
  | some x => some x
  | none => m.detectedTime.map asciiLowerStr

/-- The day-match inner branch of the oracle-aware variant (part_000 lines
396-425). -/
def classifyLLM (m : Meeting) (e : CalendarEvent) : Bool × String :=
  match mtfcLLM m, e.startTime with
  | some ts, some (h, mi) =>
    if timeMatchB ts (fmtTime h mi) then (true, "Time and date match")
    else (false, "Same day, potentially conflicting time")
  | _, _ => (true, "Date match, time unclear")

/-- The pushes generated for one meeting by the oracle-aware event/date
double loop (part_000 lines 348-428). -/
def entriesLLM (m : Meeting) : List CalendarEvent →
    List (CalendarEvent × Bool × String)
  | [] => []
  | e :: es =>
    ((meetingDatesLLM m).filter fun d => d == e.startDay).map (fun _ =>
      (e, classifyLLM m e)) ++ entriesLLM m es

/-- Effective confidence (part_000 lines 432-434): oracle confidence / 100
when a verdict is present, else the heuristic confidence. -/
def effectiveConfidence (m : Meeting) : ℚ :=
  match m.llmAnalysis with
  | some a => a.confidence / 100
  | none => m.confidence

/-- The per-meeting body of the oracle-aware `analyzeConflictsAndMissing`
(part_000 lines 343-446), with the missing-event decision gated by
`!foundMatch && !foundConflict && effectiveConfidence > 0.6`. -/
def auditOneLLM (m : Meeting) (events : List CalendarEvent) : AuditOutput :=
  let pushes := entriesLLM m events
  let confirmed := (pushes.filter fun p => p.2.1).map fun p =>
    MatchEntry.mk m p.1 p.2.2
  let conflicts := (pushes.filter fun p => !p.2.1).map fun p =>
    MatchEntry.mk m p.1 p.2.2
  let foundMatch := pushes.any fun p => p.2.1
  let foundConflict := pushes.any fun p => !p.2.1
  { conflicts := conflicts
    missingEvents :=
      if !foundMatch && !foundConflict &&
          decide (effectiveConfidence m > 3/5) then
        [MissingEntry.mk m (match m.llmAnalysis with
          | some a => "Claude confirmed meeting (" ++ qToStr a.confidence ++
              "%) not found in calendar"
          | none => "High confidence meeting not found in calendar")]
      else []
    confirmedMeetings := confirmed }

/-- `analyzeConflictsAndMissing` (part_000 lines 338-453, the oracle-aware
variant). -/
def analyzeConflictsAndMissingLLM (detectedMeetings : List Meeting)
    (calendarEvents : List CalendarEvent) : AuditOutput :=
  match detectedMeetings with
  | [] => ⟨[], [], []⟩
  | m :: ms =>
    let o := auditOneLLM m calendarEvents
    let rest := analyzeConflictsAndMissingLLM ms calendarEvents
    ⟨o.conflicts ++ rest.conflicts,
     o.missingEvents ++ rest.missingEvents,
     o.confirmedMeetings ++ rest.confirmedMeetings⟩

/-- The audit pipeline of `auditUser` (part_000 lines 77-119) with the
oracle disabled, on already-fetched message and event snapshots: keyword
detection, fallback enhancement, then the oracle-aware matcher. -/
def runDisabledPipeline (today : Int) (messages : List WAMessage)
    (events : List CalendarEvent) : AuditOutput :=
  analyzeConflictsAndMissingLLM (enhanceDisabled (detectMeetings today
    messages)) events

/-- Stable newest-first sort of `getRecentMessages` (part_000 line 230:
`allMessages.sort((a, b) => b.timestamp - a.timestamp)`), modelled as a
stable insertion sort. -/
def insertDesc (m : WAMessage) : List WAMessage → List WAMessage
  | [] => [m]
  | x :: xs =>
    if m.timestamp > x.timestamp then m :: x :: xs else x :: insertDesc m xs

/-- The message ordering handed to the detector: newest first. -/
def sortMessagesDesc (msgs : List WAMessage) : List WAMessage :=
  msgs.foldr insertDesc []

/-- The conflict excerpts the summary actually shows:
`auditData.conflicts.slice(0, 3)` (part_000 line 884). -/
def summaryShownConflicts (auditData : AuditOutput) : List MatchEntry :=
  auditData.conflicts.take 3

/-- The conflict count the summary reports: `auditData.conflicts.length`
(part_000 line 883), computed on the uncapped list. -/
def summaryConflictCount (auditData : AuditOutput) : Nat :=
  auditData.conflicts.length

/-- The missing-event excerpts the summary shows:
`auditData.missingEvents.slice(0, 3)` (part_000 line 896). -/
def summaryShownMissing (auditData : AuditOutput) : List MissingEntry :=
  auditData.missingEvents.take 3

/-- The missing-event count the summary reports (part_000 line 895). -/
def summaryMissingCount (auditData : AuditOutput) : Nat :=
  auditData.missingEvents.length

/-- JSON values as produced by `JSON.parse`. -/
inductive JVal where
  | jnull : JVal
  | jbool : Bool → JVal
  | jnum : ℚ → JVal
  | jstr : String → JVal
  | jarr : List JVal → JVal
  | jobj : List (String × JVal) → JVal

/-- Hexadecimal digit value. -/
def hexVal (c : Char) : Option Nat :=
  if isDigitC c then some (c.toNat - '0'.toNat)
  else if 'a' ≤ c ∧ c ≤ 'f' then some (c.toNat - 'a'.toNat + 10)
  else if 'A' ≤ c ∧ c ≤ 'F' then some (c.toNat - 'A'.toNat + 10)
  else none

/-- JSON string-literal body parser (after the opening quote); returns the
decoded string and the rest of the input. -/
def parseJStrGo (acc : List Char) : List Char → Option (String × List Char)
  | [] => none
  | c :: cs =>
    if c == '\"' then some (⟨acc.reverse⟩, cs)
    else if c == '\\' then
      match cs with
      | [] => none
      | e :: cs2 =>
        if e == '\"' then parseJStrGo ('\"' :: acc) cs2
        else if e == '\\' then parseJStrGo ('\\' :: acc) cs2
        else if e == '/' then parseJStrGo ('/' :: acc) cs2
        else if e == 'n' then parseJStrGo ('\n' :: acc) cs2
        else if e == 't' then parseJStrGo ('\t' :: acc) cs2
        else if e == 'r' then parseJStrGo ('\r' :: acc) cs2
        else if e == 'b' then parseJStrGo (Char.ofNat 8 :: acc) cs2
        else if e == 'f' then parseJStrGo (Char.ofNat 12 :: acc) cs2
        else if e == 'u' then
          match cs2 with
          | a :: b :: c3 :: d :: cs3 =>
            match hexVal a, hexVal b, hexVal c3, hexVal d with
            | some ha, some hb, some hc, some hd =>
              parseJStrGo (Char.ofNat (((ha * 16 + hb) * 16 + hc) * 16 + hd)
                :: acc) cs3
            | _, _, _, _ => none
          | _ => none
        else none
    else if c.toNat < 32 then none
    else parseJStrGo (c :: acc) cs

/-- Scale a rational by a signed power of ten. -/
def mulPow10 (q : ℚ) (e : Int) : ℚ :=
  if 0 ≤ e then q * (10 : ℚ) ^ e.toNat else q / (10 : ℚ) ^ (-e).toNat

/-- JSON number parser at the head of the input (grammar
`-? (0 | [1-9][0-9]*) frac? exp?`). -/
def parseJNum (cs : List Char) : Option (JVal × List Char) :=
  let core := fun (cs1 : List Char) (neg : Bool) =>
    match cs1 with
    | [] => none
    | c :: _ =>
      if !isDigitC c then none else
      let ids := cs1.takeWhile isDigitC
      if ids.length > 1 && c == '0' then none else
      let r1 := cs1.drop ids.length
      let iv : ℚ := (digitsVal ids : ℚ)
      let fracRes : Option (ℚ × List Char) :=
        match r1 with
        | '.' :: fr =>
          let fds := fr.takeWhile isDigitC
          if fds.isEmpty then none
          else some (iv + (digitsVal fds : ℚ) / (10 : ℚ) ^ fds.length,
            fr.drop fds.length)
        | _ => some (iv, r1)
      match fracRes with
      | none => none
      | some (v, r2) =>
        let expRes : Option (ℚ × List Char) :=
          match r2 with
          | e :: er =>
            if e == 'e' || e == 'E' then
              let (esign, er2) : Bool × List Char :=
                match er with
                | '-' :: t => (true, t)
                | '+' :: t => (false, t)
                | _ => (false, er)
              let eds := er2.takeWhile isDigitC
              if eds.isEmpty then none
              else some (mulPow10 v (if esign then -(digitsVal eds : Int)
                else (digitsVal eds : Int)), er2.drop eds.length)
            else some (v, r2)
          | [] => some (v, r2)
        match expRes with
        | none => none
        | some (v2, r3) => some (.jnum (if neg then -v2 else v2), r3)
  match cs with
  | '-' :: rest => core rest true
  | _ => core cs false

mutual

/-- Recursive-descent JSON value parser with explicit fuel (any fuel larger
than the input length suffices, since every recursive call is preceded by
the consumption of at least one character). -/
def parseJVal : Nat → List Char → Option (JVal × List Char)
  | 0, _ => none
  | fuel + 1, cs =>
    let cs := cs.dropWhile isWsC
    match cs with
    | [] => none
    | c :: rest =>
      if c == '\x7b' then
        match rest.dropWhile isWsC with
        | '\x7d' :: r2 => some (.jobj [], r2)
        | r2 => parseJFields fuel r2 []
      else if c == '[' then
        match rest.dropWhile isWsC with
        | ']' :: r2 => some (.jarr [], r2)
        | r2 => parseJElems fuel r2 []
      else if c == '\"' then
        (parseJStrGo [] rest).map fun p => (.jstr p.1, p.2)
      else if c == 't' then
        if prefixB "rue".data rest then some (.jbool true, rest.drop 3)
        else none
      else if c == 'f' then
        if prefixB "alse".data rest then some (.jbool false, rest.drop 4)
        else none
      else if c == 'n' then
        if prefixB "ull".data rest then some (.jnull, rest.drop 3) else none
      else parseJNum cs

/-- Object-member list parser (after the opening brace, at a key). -/
def parseJFields : Nat → List Char → List (String × JVal) →
    Option (JVal × List Char)
  | 0, _, _ => none
  | fuel + 1, cs, acc =>
    match cs.dropWhile isWsC with
    | '\"' :: rest =>
      match parseJStrGo [] rest with
      | none => none
      | some (key, r1) =>
        match r1.dropWhile isWsC with
        | ':' :: r2 =>
          match parseJVal fuel r2 with
          | none => none
          | some (v, r3) =>
            match r3.dropWhile isWsC with
            | ',' :: r4 => parseJFields fuel r4 (acc ++ [(key, v)])
            | '\x7d' :: r4 => some (.jobj (acc ++ [(key, v)]), r4)
            | _ => none
        | _ => none
    | _ => none

/-- Array-element list parser (after the opening bracket, at a value). -/
def parseJElems : Nat → List Char → List JVal → Option (JVal × List Char)
  | 0, _, _ => none
  | fuel + 1, cs, acc =>
    match parseJVal fuel cs with
    | none => none
    | some (v, r1) =>
      match r1.dropWhile isWsC with
      | ',' :: r2 => parseJElems fuel r2 (acc ++ [v])
      | ']' :: r2 => some (.jarr (acc ++ [v]), r2)
      | _ => none

end

/-- `JSON.parse`: a complete parse of the input (trailing whitespace
allowed), `none` modelling a thrown `SyntaxError`. -/
def jsonParse (s : String) : Option JVal :=
  match parseJVal (s.data.length + 1) s.data with
  | some (v, rest) => if (rest.dropWhile isWsC).isEmpty then some v else none
  | none => none

/-- Property access `parsed[key]` on a JSON value (objects from `JSON.parse`
keep the last of duplicate keys). -/
def jGet (v : JVal) (key : String) : Option JVal :=
  match v with
  | .jobj fields => (fields.reverse.find? fun f => f.1 == key).map (·.2)
  | _ => none

/-- JavaScript truthiness of a field-access result (`undefined` for a
missing field is falsy). -/
def truthyJ (o : Option JVal) : Bool :=
  match o with
  | none => false
  | some .jnull => false
  | some (.jbool b) => b
  | some (.jnum q) => !(q == 0)
  | some (.jstr s) => !(s == "")
  | some (.jarr _) => true
  | some (.jobj _) => true

/-- `parsed[key] || 0` restricted to the numeric-or-absent fields the oracle
schema produces. -/
def jNumOr0 (v : JVal) (key : String) : ℚ :=
  match jGet v key with
  | some (.jnum q) => q
  | _ => 0

/-- `parsed[key] || undefined` for an optional string field. -/
def jOptStr (v : JVal) (key : String) : Option String :=
  match jGet v key with
  | some (.jstr s) => if s == "" then none else some s
  | _ => none

/-- `parsed[key] || undefined` for the optional participant array
(restricted to arrays of strings, the schema's shape). -/
def jOptStrList (v : JVal) (key : String) : Option (List String) :=
  match jGet v key with
  | some (.jarr l) => some (l.filterMap fun x =>
      match x with
      | .jstr s => some s
      | _ => none)
  | _ => none

/-- `parsed[key] || default` for the reasoning string. -/
def jStrOr (v : JVal) (key : String) (dflt : String) : String :=
  match jGet v key with
  | some (.jstr s) => if s == "" then dflt else s
  | _ => dflt

/-- `Math.max(0, Math.min(100, x))` generalised. -/
def qClamp (lo hi q : ℚ) : ℚ := max lo (min hi q)

/-- `response.match(/\{[\s\S]*\}/)`: the slice from the first `{` to the
last `}` of the string (the greedy match), `none` when no `}` follows the
first `{`. -/
def braceSlice (s : String) : Option String :=
  let cs := s.data
  match cs.findIdx? (· == '\x7b'), cs.reverse.findIdx? (· == '\x7d') with
  | some i, some k =>
    let j := cs.length - 1 - k
    if i < j then some ⟨(cs.drop i).take (j - i + 1)⟩ else none
  | _, _ => none

/-- One global replacement pass `s.replace(/tok\s*/g, '')`, scanning left to
right and never rescanning emitted output. -/
def stripTokGo (tok : List Char) : Nat → List Char → List Char
  | 0, cs => cs
  | _ + 1, [] => []
  | f + 1, c :: cs =>
    if prefixB tok (c :: cs) then
      stripTokGo tok f (((c :: cs).drop tok.length).dropWhile isWsC)
    else c :: stripTokGo tok f cs

/-- `s.replace(/tok\s*/g, '')` for a literal token. -/
def stripTok (tok : String) (s : String) : String :=
  ⟨stripTokGo tok.data s.data.length s.data⟩

/-- `s.replace(/^\s*json\s*/g, '')` (the anchor makes at most one
replacement, at the start). -/
def stripLeadingJson (s : String) : String :=
  let cs := s.data
  let rest := cs.dropWhile isWsC
  if prefixB "json".data rest then ⟨(rest.drop 4).dropWhile isWsC⟩ else s

/-- The string `LLMAnalyzer.parseAnalysisResponse` (llm-analyzer.js lines
168-186) hands to `JSON.parse`: the greedy brace slice when one exists else
the trimmed response, then the code-fence cleanup passes and a final
trim. -/
def extractJsonStr (response : String) : String :=
  let jsonStr := match braceSlice response with
    | some m => m
    | none => jsTrim response
  jsTrim (stripLeadingJson (stripTok "```" (stripTok "```json" jsonStr)))

/-- The verdict returned on any parse failure (llm-analyzer.js lines
197-205). -/
def failVerdict : LLMResult :=
  { isValidMeeting := false
    confidence := 0
    reasoning := "Failed to parse Claude response" }

/-- Field extraction from a successfully parsed oracle response
(llm-analyzer.js lines 188-196), with the confidence clamped into
[0, 100]. -/
def verdictOfJson (parsed : JVal) : LLMResult :=
  { isValidMeeting := truthyJ (jGet parsed "isValidMeeting")
    confidence := qClamp 0 100 (jNumOr0 parsed "confidence")
    extractedDateTime := jOptStr parsed "extractedDateTime"
    extractedLocation := jOptStr parsed "extractedLocation"
    extractedParticipants := jOptStrList parsed "extractedParticipants"
    meetingType := jOptStr parsed "meetingType"
    reasoning := jStrOr parsed "reasoning" "No reasoning provided" }

/-- `LLMAnalyzer.parseAnalysisResponse` (llm-analyzer.js lines 168-206):
extraction, cleanup, `JSON.parse` and field extraction inside a `try` whose
`catch` returns `failVerdict`.  A parse result of `null` reaches the field
accesses, throws there, and is caught by the same handler. -/
def parseAnalysisResponse (response : String) : LLMResult :=
  match jsonParse (extractJsonStr response) with
  | none => failVerdict
  | some .jnull => failVerdict
  | some parsed => verdictOfJson parsed

/-- Balanced-brace span starting at a `{`: length of the shortest prefix in
which the braces balance. -/
def balancedSpanGo : List Char → Nat → Nat → Option Nat
  | [], _, _ => none
  | c :: cs, depth, n =>
    if c == '\x7b' then balancedSpanGo cs (depth + 1) (n + 1)
    else if c == '\x7d' then
      if depth == 1 then some (n + 1)
      else if depth == 0 then none
      else balancedSpanGo cs (depth - 1) (n + 1)
    else balancedSpanGo cs depth (n + 1)

/-- The extraction step as the specification words it: the FIRST balanced
JSON object substring of the response.  Stated from the spec's words
("extract the first balanced JSON object substring"), for comparison with
the code's greedy `braceSlice`; brace balance is tracked at character level,
which coincides with JSON balance for responses whose string literals
contain no braces. -/
def specFirstJsonObject (s : String) : Option String :=
  let cs := s.data
  match cs.findIdx? (· == '\x7b') with
  | some i =>
    (balancedSpanGo (cs.drop i) 0 0).map fun len => (⟨(cs.drop i).take len⟩ :
      String)
  | none => none

/-- The adapter behaviour the claim describes: parse the FIRST JSON object
substring (fences stripped) and fall back to the failure verdict only when
that extraction or its parse fails. -/
def specParseAnalysisResponse (response : String) : LLMResult :=
  match specFirstJsonObject (stripTok "```" (stripTok "```json"
    response)) with
  | none => failVerdict
  | some m =>
    match jsonParse m with
    | none => failVerdict
    | some .jnull => failVerdict
    | some parsed => verdictOfJson parsed

/-- The token → `getNextWeekday` argument mapping of the weekday branches of
`parseDates` (keyword-detector.js lines 191-205), in source order. -/
def weekdayTokenTable : List (String × Int) := [
  ("monday", 1), ("ראשון", 1),
  ("tuesday", 2), ("שני", 2),
  ("wednesday", 3), ("שלישי", 3),
  ("thursday", 4), ("רביעי", 4),
  ("friday", 5), ("חמישי", 5),
  ("saturday", 6), ("שישי", 6),
  ("sunday", 0), ("שבת", 0)]

/-- 2025-09-15, a Monday (used by the end-to-end scenario of the spec). -/
def mondayC1 : Int := daysFromCivil 2025 9 15

/-- 2025-09-14, a Sunday — the weekday the Hebrew token "ראשון" names. -/
def sundayC4 : Int := daysFromCivil 2025 9 14

/-- The end-to-end scenario message. -/
def msgC1 : WAMessage :=
  { id := "m1", text := "Let\x27s meet tomorrow at 3", timestamp := 1000 }

/-- The end-to-end scenario calendar event: Tuesday 15:00-15:30. -/
def eventC1 : CalendarEvent :=
  { id := "ev1", summary := "Coffee with Dana",
    startDay := daysFromCivil 2025 9 16, startTime := some (15, 0) }

/-- A candidate with a detected time, used against two same-day events. -/
def mC2ex : Meeting :=
  { id := "c2", detectedTime := some "15:00", parsedDates := [100],
    confidence := 1/2, timestamp := 10 }

/-- Same-day event whose start time matches the candidate. -/
def e1C2ex : CalendarEvent :=
  { id := "e1", summary := "standup", startDay := 100,
    startTime := some (15, 0) }

/-- Same-day event whose start time does not match the candidate. -/
def e2C2ex : CalendarEvent :=
  { id := "e2", summary := "review", startDay := 100,
    startTime := some (16, 0) }

/-- A candidate with an oracle verdict at 50% confidence and a resolved day
with no matching event. -/
def mC3ex : Meeting :=
  { id := "c3", parsedDates := [10], confidence := 9/10,
    llmAnalysis :=
      some { isValidMeeting := false, confidence := 50, reasoning := "r" } }

/-- An event on a different day than `mC3ex`. -/
def eC3ex : CalendarEvent :=
  { id := "e3", summary := "other", startDay := 11, startTime := none }

/-- A candidate whose heuristic confidence comes from the scorer (two
keywords and one date token). -/
def mC6ex : Meeting :=
  { id := "c6", detectedDate := some "tomorrow",
    confidence := calculateConfidence 2 1 0 0 }

/-- An oracle response containing two JSON objects: the greedy brace match
spans both and fails to parse. -/
def rC7 : String :=
  "Here: \x7b\"isValidMeeting\": true, \"confidence\": 80, \"reasoning\": \"ok\"\x7d and \x7b\"note\": \"extra\"\x7d"

/-- An oracle response with no JSON at all. -/
def rC7bad : String := "no json here"

/-- Two conflicting-meeting messages, older first (unsorted). -/
def msgsC9 : List WAMessage :=
  [{ id := "a", text := "meeting tomorrow at 15:00", timestamp := 100 },
   { id := "b", text := "meeting tomorrow at 15:00", timestamp := 200 }]

/-- The event both `msgsC9` candidates conflict with (their resolved day,
different time). -/
def eventC9 : CalendarEvent :=
  { id := "e9", summary := "booked", startDay := 1, startTime := some (16, 0) }

/-- Conflicting candidate with the newer timestamp. -/
def mC9w1 : Meeting :=
  { id := "w1", detectedTime := some "15:00", parsedDates := [7],
    confidence := 1, timestamp := 5 }

/-- Conflicting candidate with the older timestamp. -/
def mC9w2 : Meeting :=
  { id := "w2", detectedTime := some "15:00", parsedDates := [7],
    confidence := 1, timestamp := 3 }

/-- The event both `mC9w1`/`mC9w2` conflict with. -/
def eventC9w : CalendarEvent :=
  { id := "e9w", summary := "busy", startDay := 7, startTime := some (16, 0) }

/-- A message with one keyword match, used to witness the pruning claim. -/
def msgC10 : WAMessage :=
  { id := "w10", text := "meeting tomorrow", timestamp := 42 }

/-- The candidate `analyzeMessage` produces for `msgC10`. -/
def candC10 : Meeting :=
  match analyzeMessage 0 msgC10 with
  | some c => c
  | none => {}

/-! ## Theorems -/

lemma getNextWeekday_spec (t now : Int) (h0 : 0 ≤ t) (h7 : t < 7) :
    now < getNextWeekday t now ∧ getNextWeekday t now ≤ now + 7 ∧
    getDayJS (getNextWeekday t now) = t ∧
    (getDayJS now = t → getNextWeekday t now = now + 7) := by
  simp only [getNextWeekday, getDayJS]
  split <;> omega

/-- C4 (amended): every named-weekday token resolves to the strictly-future
occurrence of the weekday the resolver's own table MAPS it to — at most 7
days ahead, landing on the mapped weekday, and exactly `now + 7` when the
evaluation day itself already has the mapped weekday.  English tokens map
to the weekday they name; the Hebrew tokens are paired one weekday later
than their conventional meaning (ראשון → Monday, …, שבת → Sunday), so for
them the next-future-occurrence/self-day properties hold of the mapped
weekday only, not of the weekday the token names. -/
theorem c4_next_weekday (tok : String) (t : Int)
    (h : (tok, t) ∈ weekdayTokenTable) (now : Int) :
    parseOneDate now tok = some (getNextWeekday t now) ∧
    now < getNextWeekday t now ∧ getNextWeekday t now ≤ now + 7 ∧
    getDayJS (getNextWeekday t now) = t ∧
    (getDayJS now = t → getNextWeekday t now = now + 7) := by
  fin_cases h <;>
    exact ⟨rfl, getNextWeekday_spec _ now (by norm_num) (by norm_num)⟩

/-- Witness for C4 at the token "friday" on day 20346 (2025-09-15, a
Monday). -/
theorem c4_next_weekday_witness :
    parseOneDate 20346 "friday" = some (getNextWeekday 5 20346) ∧
    20346 < getNextWeekday 5 20346 ∧ getNextWeekday 5 20346 ≤ 20346 + 7 ∧
    getDayJS (getNextWeekday 5 20346) = 5 ∧
    (getDayJS 20346 = 5 → getNextWeekday 5 20346 = 20346 + 7) :=
  c4_next_weekday "friday" 5 (by decide) 20346

/-- Counterexample to C4 as stated: the Hebrew token "ראשון" names Sunday
(weekday 0), but the resolver maps it to Monday; evaluated on a Sunday it
resolves to the very next day — a Monday — so the result is neither a
future occurrence of the weekday the token names nor `D + 7` on the
token's own day. -/
theorem c4_hebrew_skew_counterexample :
    getDayJS sundayC4 = 0 ∧
    parseOneDate sundayC4 "ראשון" = some (sundayC4 + 1) ∧
    getDayJS (sundayC4 + 1) = 1 ∧
    parseOneDate sundayC4 "ראשון" ≠ some (sundayC4 + 7) := by
  refine ⟨by with_unfolding_all decide, by with_unfolding_all rfl,
    by with_unfolding_all decide, by with_unfolding_all decide⟩

lemma calcConf_eq (k d t n : Nat) :
    calculateConfidence k d t n =
      min (0 + min ((k : ℚ) * (3/10)) (3/5) + min ((d : ℚ) * (1/4)) (2/5) +
        min ((t : ℚ) * (1/5)) (3/10) + min ((n : ℚ) * (1/10)) (1/5)) 1 := rfl

lemma calcConfTS_eq (k d t n : Nat) :
    calculateConfidenceTS k d t n =
      min (0 + min ((k : ℚ) * (3/10)) (3/5) + min ((d : ℚ) * (1/5)) (2/5) +
        min ((t : ℚ) * (3/20)) (3/10) + min ((n : ℚ) * (1/10)) (1/5)) 1 := rfl

/-- C5: for all signal counts the heuristic confidence lies in [0, 1], and
with the keyword count held fixed it is monotonically non-decreasing in the
date, time and name counts — in both observed weight-table variants. -/
theorem c5_confidence_bounds_mono (k d t n d' t' n' : Nat) (hd : d ≤ d')
    (ht : t ≤ t') (hn : n ≤ n') :
    0 ≤ calculateConfidence k d t n ∧ calculateConfidence k d t n ≤ 1 ∧
    calculateConfidence k d t n ≤ calculateConfidence k d' t' n' ∧
    0 ≤ calculateConfidenceTS k d t n ∧ calculateConfidenceTS k d t n ≤ 1 ∧
    calculateConfidenceTS k d t n ≤ calculateConfidenceTS k d' t' n' := by
  have hd' : (d : ℚ) ≤ (d' : ℚ) := by exact_mod_cast hd
  have ht' : (t : ℚ) ≤ (t' : ℚ) := by exact_mod_cast ht
  have hn' : (n : ℚ) ≤ (n' : ℚ) := by exact_mod_cast hn
  rw [calcConf_eq, calcConf_eq, calcConfTS_eq, calcConfTS_eq]
  refine ⟨le_min (by positivity) (by norm_num), min_le_right _ _,
    min_le_min (by gcongr) le_rfl,
    le_min (by positivity) (by norm_num), min_le_right _ _,
    min_le_min (by gcongr) le_rfl⟩

/-- Witness for C5 at counts (2, 0, 1, 0) ≤ (2, 1, 2, 3). -/
theorem c5_confidence_bounds_mono_witness :
    0 ≤ calculateConfidence 2 0 1 0 ∧ calculateConfidence 2 0 1 0 ≤ 1 ∧
    calculateConfidence 2 0 1 0 ≤ calculateConfidence 2 1 2 3 ∧
    0 ≤ calculateConfidenceTS 2 0 1 0 ∧
    calculateConfidenceTS 2 0 1 0 ≤ 1 ∧
    calculateConfidenceTS 2 0 1 0 ≤ calculateConfidenceTS 2 1 2 3 :=
  c5_confidence_bounds_mono 2 0 1 0 1 2 3 (by norm_num) (by norm_num)
    (by norm_num)

lemma analyzeMessage_some_inv {today : Int} {msg : WAMessage} {cand : Meeting}
    (h : analyzeMessage today msg = some cand) :
    ∃ k d t n : Nat, 1 ≤ k ∧
      cand.confidence = calculateConfidence k d t n ∧
      cand.timestamp = msg.timestamp := by
  simp only [analyzeMessage] at h
  split at h
  · exact absurd h (by simp)
  split at h
  · exact absurd h (by simp)
  split at h
  · exact absurd h (by simp)
  obtain rfl := Option.some.inj h
  rename_i htrim hnz hconf
  refine ⟨_, _, _, _, ?_, rfl, rfl⟩
  simp only [beq_iff_eq] at hnz
  omega

lemma calcConf_ge_threshold (k d t n : Nat) (hk : 1 ≤ k) :
    3/10 ≤ calculateConfidence k d t n ∧
    3/10 ≤ calculateConfidenceTS k d t n := by
  have hk' : (1 : ℚ) ≤ (k : ℚ) := by exact_mod_cast hk
  have h1 : (3:ℚ)/10 ≤ min ((k : ℚ) * (3/10)) (3/5) :=
    le_min (by nlinarith) (by norm_num)
  have h2 : (0:ℚ) ≤ min ((d : ℚ) * (1/4)) (2/5) :=
    le_min (by positivity) (by norm_num)
  have h2' : (0:ℚ) ≤ min ((d : ℚ) * (1/5)) (2/5) :=
    le_min (by positivity) (by norm_num)
  have h3 : (0:ℚ) ≤ min ((t : ℚ) * (1/5)) (3/10) :=
    le_min (by positivity) (by norm_num)
  have h3' : (0:ℚ) ≤ min ((t : ℚ) * (3/20)) (3/10) :=
    le_min (by positivity) (by norm_num)
  have h4 : (0:ℚ) ≤ min ((n : ℚ) * (1/10)) (1/5) :=
    le_min (by positivity) (by norm_num)
  rw [calcConf_eq, calcConfTS_eq]
  constructor <;> exact le_min (by linarith) (by norm_num)

/-- C10: any produced candidate has at least one keyword match, which alone
already puts the heuristic confidence at ≥ 0.3, so neither the
0.1-threshold pruning branch of the JavaScript detector nor the
0.3-threshold branch of the TypeScript variant ever discards a candidate
with a keyword match. -/
theorem c10_keyword_floor (today : Int) (msg : WAMessage) (cand : Meeting)
    (h : analyzeMessage today msg = some cand) :
    3/10 ≤ cand.confidence ∧ ¬(cand.confidence < 1/10) ∧
    ∀ k d t n : Nat, 1 ≤ k →
      3/10 ≤ calculateConfidence k d t n ∧
      ¬(calculateConfidence k d t n < 1/10) ∧
      3/10 ≤ calculateConfidenceTS k d t n ∧
      ¬(calculateConfidenceTS k d t n < 3/10) := by
  obtain ⟨k, d, t, n, hk, hc, -⟩ := analyzeMessage_some_inv h
  have hfloor := calcConf_ge_threshold k d t n hk
  refine ⟨hc ▸ hfloor.1, hc ▸ not_lt.2 (le_trans (by norm_num) hfloor.1),
    fun k' d' t' n' hk' => ?_⟩
  have hf := calcConf_ge_threshold k' d' t' n' hk'
  exact ⟨hf.1, not_lt.2 (le_trans (by norm_num) hf.1), hf.2, not_lt.2 hf.2⟩

/-- Witness for C10 at the concrete message `msgC10`. -/
theorem c10_keyword_floor_witness :
    3/10 ≤ candC10.confidence ∧ ¬(candC10.confidence < 1/10) ∧
    3/10 ≤ calculateConfidenceTS 1 0 0 0 ∧
    ¬(calculateConfidenceTS 1 0 0 0 < 3/10) := by
  have h := c10_keyword_floor 0 msgC10 candC10 (by with_unfolding_all decide)
  exact ⟨h.1, h.2.1, (h.2.2 1 0 0 0 (by norm_num)).2.2.1,
    (h.2.2 1 0 0 0 (by norm_num)).2.2.2⟩

lemma entriesLLM_eq_nil {m : Meeting} {events : List CalendarEvent}
    (h : ∀ e ∈ events, e.startDay ∉ meetingDatesLLM m) :
    entriesLLM m events = [] := by
  induction events with
  | nil => rfl
  | cons e es ih =>
    have hfil : (meetingDatesLLM m).filter (fun d => d == e.startDay) = [] := by
      rw [List.filter_eq_nil_iff]
      intro d hd
      simp only [beq_iff_eq]
      intro hde
      exact h e (by simp) (hde ▸ hd)
    simp only [entriesLLM, hfil, List.map_nil, List.nil_append]
    exact ih fun e' he' => h e' (by simp [he'])

/-- C3: a candidate none of whose authoritative dates matches the day of
any calendar event, and whose effective confidence (oracle confidence / 100
when a verdict is present, else the heuristic confidence) does not exceed
the Missing threshold 0.6, contributes no record of any status to the
matcher output. -/
theorem c3_no_record_below_threshold (m : Meeting)
    (events : List CalendarEvent)
    (hday : ∀ e ∈ events, e.startDay ∉ meetingDatesLLM m)
    (hconf : effectiveConfidence m ≤ 3/5) :
    auditOneLLM m events = ⟨[], [], []⟩ := by
  have hnil := entriesLLM_eq_nil hday
  simp only [auditOneLLM, hnil, List.filter_nil, List.map_nil,
    List.any_nil, Bool.not_false, Bool.true_and]
  rw [if_neg]
  simp only [decide_eq_true_eq, not_lt]
  exact hconf

/-- Witness for C3: a candidate with an oracle verdict at 50% and a
resolved day matching no event. -/
theorem c3_no_record_below_threshold_witness :
    auditOneLLM mC3ex [eC3ex] = ⟨[], [], []⟩ :=
  c3_no_record_below_threshold mC3ex [eC3ex]
    (by with_unfolding_all decide) (by with_unfolding_all decide)

lemma div20_min (a b : ℚ) : min a b / 20 = min (a / 20) (b / 20) := by
  rcases le_total a b with h | h
  · rw [min_eq_left h, min_eq_left (by gcongr)]
  · rw [min_eq_right h, min_eq_right (by gcongr)]

lemma calcConf_exists_nat (k d t n : Nat) :
    ∃ j : Nat, j ≤ 20 ∧ calculateConfidence k d t n = (j : ℚ) / 20 := by
  refine ⟨min (min (6*k) 12 + min (5*d) 8 + min (4*t) 6 + min (2*n) 4) 20,
    min_le_right _ _, ?_⟩
  have hA : min ((k:ℚ) * (3/10)) (3/5) = ((min (6*k) 12 : Nat) : ℚ) / 20 := by
    rw [Nat.cast_min, div20_min]
    congr 1
    · push_cast; ring
    · norm_num
  have hB : min ((d:ℚ) * (1/4)) (2/5) = ((min (5*d) 8 : Nat) : ℚ) / 20 := by
    rw [Nat.cast_min, div20_min]
    congr 1
    · push_cast; ring
    · norm_num
  have hC : min ((t:ℚ) * (1/5)) (3/10) = ((min (4*t) 6 : Nat) : ℚ) / 20 := by
    rw [Nat.cast_min, div20_min]
    congr 1
    · push_cast; ring
    · norm_num
  have hD : min ((n:ℚ) * (1/10)) (1/5) = ((min (2*n) 4 : Nat) : ℚ) / 20 := by
    rw [Nat.cast_min, div20_min]
    congr 1
    · push_cast; ring
    · norm_num
  rw [calcConf_eq, hA, hB, hC, hD]
  rw [zero_add, div_add_div_same, div_add_div_same, div_add_div_same]
  conv_rhs => rw [Nat.cast_min, div20_min]
  congr 1
  · congr 1
    rw [Nat.cast_add, Nat.cast_add, Nat.cast_add]
  · norm_num

lemma jsRound_mul100 (j : Nat) : jsRound ((j : ℚ) / 20 * 100) = 5 * j := by
  have h : ((j : ℚ) / 20 * 100) = ((5 * j : Nat) : ℚ) := by push_cast; ring
  rw [h]
  unfold jsRound
  rw [add_comm, Int.floor_add_nat]
  norm_num

lemma thirty_lt_iff (j : Nat) :
    (30 < (5 * j : Int)) ↔ ((3:ℚ)/10 < (j:ℚ)/20) := by
  rw [div_lt_div_iff₀ (by norm_num) (by norm_num)]
  constructor <;> intro h
  · have hj : (60 : ℚ) < (j : ℚ) * 10 := by exact_mod_cast by omega
    linarith
  · have h60 : (3 : ℚ) * 20 = 60 := by norm_num
    rw [h60] at h
    have hj : 60 < j * 10 := by exact_mod_cast h
    omega

/-- C6: with no oracle credential configured the fallback verdict is
deterministic: `isValidMeeting` holds iff a date or time token was detected
and the heuristic confidence exceeds the 0.3 fallback threshold (the
rounded-percentage test `> 30` coincides with `> 0.3` on every value the
scorer can produce), and the verdict confidence is the heuristic confidence
scaled to 0-100 (rounded). -/
theorem c6_fallback_verdict (m : Meeting) (k d t n : Nat)
    (hm : m.confidence = calculateConfidence k d t n) :
    (getFallbackResult m).isValidMeeting =
      ((m.detectedDate.isSome || m.detectedTime.isSome) &&
        decide ((3:ℚ)/10 < m.confidence)) ∧
    (getFallbackResult m).confidence = (jsRound (m.confidence * 100) : ℚ) := by
  refine ⟨?_, rfl⟩
  have hgf : (getFallbackResult m).isValidMeeting =
      ((m.detectedDate.isSome || m.detectedTime.isSome) &&
        decide (jsRound (m.confidence * 100) > 30)) := rfl
  have hiff : (jsRound (m.confidence * 100) > 30) ↔
      ((3:ℚ)/10 < m.confidence) := by
    obtain ⟨j, hj20, hj⟩ := calcConf_exists_nat k d t n
    rw [hm, hj, jsRound_mul100]
    exact (thirty_lt_iff j)
  rw [hgf, decide_eq_decide.mpr hiff]

/-- Witness for C6 at a candidate scored from two keywords and one date
token (confidence 0.85). -/
theorem c6_fallback_verdict_witness :
    (getFallbackResult mC6ex).isValidMeeting =
      ((mC6ex.detectedDate.isSome || mC6ex.detectedTime.isSome) &&
        decide ((3:ℚ)/10 < mC6ex.confidence)) ∧
    (getFallbackResult mC6ex).confidence =
      (jsRound (mC6ex.confidence * 100) : ℚ) :=
  c6_fallback_verdict mC6ex 2 1 0 0 rfl

/-- C7 (amended): verdict parsing is total and never propagates an error:
the adapter takes the greedy slice from the first brace to the last brace
(not the first balanced object), strips code fences, and whenever
`JSON.parse` fails on the result it returns the parse-failure verdict with
`isValidMeeting = false` and confidence 0. -/
theorem c7_parse_failure_verdict (response : String)
    (h : jsonParse (extractJsonStr response) = none) :
    parseAnalysisResponse response = failVerdict := by
  unfold parseAnalysisResponse
  rw [h]

/-- Witness for C7 on a response with no JSON content. -/
theorem c7_parse_failure_verdict_witness :
    parseAnalysisResponse rC7bad = failVerdict :=
  c7_parse_failure_verdict rC7bad (by with_unfolding_all rfl)

/-- Counterexample to C7 as stated: on a response containing two JSON
objects, extracting the FIRST JSON object substring (the spec's wording,
modelled by `specParseAnalysisResponse`) would yield a valid verdict, but
the code's greedy first-brace-to-last-brace extraction spans both objects,
fails to parse, and produces the failure verdict instead. -/
theorem c7_first_object_counterexample :
    (specParseAnalysisResponse rC7).isValidMeeting = true ∧
    (specParseAnalysisResponse rC7).confidence = 80 ∧
    (parseAnalysisResponse rC7).isValidMeeting = false ∧
    (parseAnalysisResponse rC7).confidence = 0 ∧
    (parseAnalysisResponse rC7).reasoning =
      "Failed to parse Claude response" ∧
    parseAnalysisResponse rC7 ≠ specParseAnalysisResponse rC7 := by
  with_unfolding_all decide


/-- C8 (amended): date resolution is a total function on token lists; a
token matching no parse branch (such as the extractable token "next week")
is silently dropped, and relative tokens resolve as expected — but a
numeric token with out-of-range day or month components is NOT dropped:
`new Date`'s rollover normalisation turns it into a nearby valid calendar
day (31/02/2024 becomes 2024-03-02). -/
theorem c8_resolution_total (now : Int) :
    parseOneDate now "next week" = none ∧
    parseOneDate now "tomorrow" = some (now + 1) ∧
    parseOneDate now "1/2/3" = none ∧
    parseOneDate now "31/02/2024" = some (daysFromCivil 2024 3 2) ∧
    parseDates now ["next week", "tomorrow", "31/02/2024"] =
      [now + 1, daysFromCivil 2024 3 2] := by
  refine ⟨rfl, rfl, rfl, rfl, rfl⟩

/-- Counterexample to C8 as stated: the raw date token "31/02/2024" (which
the extractor does produce) has an out-of-range day for February, yet it is
not dropped — resolution emits the rolled-over valid day 2024-03-02
(day 19784, a Saturday in March, not a dropped token). -/
theorem c8_rollover_counterexample :
    extractDates "meeting on 31/02/2024" = ["31/02/2024"] ∧
    parseOneDate 0 "31/02/2024" ≠ none ∧
    parseOneDate 0 "31/02/2024" = some (daysFromCivil 2024 3 2) ∧
    daysFromCivil 2024 3 2 = 19784 := by
  refine ⟨by with_unfolding_all decide, by with_unfolding_all decide,
    rfl, by with_unfolding_all decide⟩

lemma mem_entriesPlain {m : Meeting} {events : List CalendarEvent}
    {p : CalendarEvent × Bool × String} :
    p ∈ entriesPlain m events ↔
      ∃ e ∈ events, (m.parsedDates.filter fun d => d == e.startDay) ≠ [] ∧
        p = (e, classifyPlain m e) := by
  induction events with
  | nil => simp [entriesPlain]
  | cons e es ih =>
    simp only [entriesPlain, List.mem_append, ih, List.mem_cons]
    constructor
    · rintro (hmem | ⟨e', he', hne, rfl⟩)
      · obtain ⟨d, hd, rfl⟩ := List.mem_map.1 hmem
        refine ⟨e, Or.inl rfl, ?_, rfl⟩
        intro hnil
        rw [hnil] at hd
        exact absurd hd (List.not_mem_nil d)
      · exact ⟨e', Or.inr he', hne, rfl⟩
    · rintro ⟨e', he' | he', hne, rfl⟩
      · subst he'
        obtain ⟨d, hd⟩ := List.exists_mem_of_ne_nil _ hne
        exact Or.inl (List.mem_map.2 ⟨d, hd, rfl⟩)
      · exact Or.inr ⟨e', he', hne, rfl⟩

lemma mem_confirmedPlain {m : Meeting} {events : List CalendarEvent}
    {en : MatchEntry} :
    en ∈ (auditOnePlain m events).confirmedMeetings ↔
      ∃ e ∈ events, (m.parsedDates.filter fun d => d == e.startDay) ≠ [] ∧
        (classifyPlain m e).1 = true ∧
        en = MatchEntry.mk m e (classifyPlain m e).2 := by
  show en ∈ ((entriesPlain m events).filter fun p => p.2.1).map
      (fun p => MatchEntry.mk m p.1 p.2.2) ↔ _
  simp only [List.mem_map, List.mem_filter, mem_entriesPlain]
  constructor
  · rintro ⟨p, ⟨⟨e, he, hne, rfl⟩, hp⟩, rfl⟩
    exact ⟨e, he, hne, hp, rfl⟩
  · rintro ⟨e, he, hne, ht, rfl⟩
    exact ⟨(e, classifyPlain m e), ⟨⟨e, he, hne, rfl⟩, ht⟩, rfl⟩

lemma mem_conflictsPlain {m : Meeting} {events : List CalendarEvent}
    {en : MatchEntry} :
    en ∈ (auditOnePlain m events).conflicts ↔
      ∃ e ∈ events, (m.parsedDates.filter fun d => d == e.startDay) ≠ [] ∧
        (classifyPlain m e).1 = false ∧
        en = MatchEntry.mk m e (classifyPlain m e).2 := by
  show en ∈ ((entriesPlain m events).filter fun p => !p.2.1).map
      (fun p => MatchEntry.mk m p.1 p.2.2) ↔ _
  simp only [List.mem_map, List.mem_filter, mem_entriesPlain,
    Bool.not_eq_true']
  constructor
  · rintro ⟨p, ⟨⟨e, he, hne, rfl⟩, hp⟩, rfl⟩
    exact ⟨e, he, hne, hp, rfl⟩
  · rintro ⟨e, he, hne, ht, rfl⟩
    exact ⟨(e, classifyPlain m e), ⟨⟨e, he, hne, rfl⟩, ht⟩, rfl⟩

/-- C2 (amended): every day-matching event is considered and is recorded
for the candidate as either a Confirmed or a Conflict entry (decided by the
time test); for a fixed candidate and a fixed event the two outcomes are
mutually exclusive — but confirmations do not suppress conflicts recorded
against other events of the same day. -/
theorem c2_matcher_records (m : Meeting) (events : List CalendarEvent) :
    (∀ e ∈ events, e.startDay ∈ m.parsedDates →
      (∃ r, MatchEntry.mk m e r ∈
        (auditOnePlain m events).confirmedMeetings) ∨
      (∃ r, MatchEntry.mk m e r ∈ (auditOnePlain m events).conflicts)) ∧
    (∀ e r r',
      MatchEntry.mk m e r ∈ (auditOnePlain m events).confirmedMeetings →
      MatchEntry.mk m e r' ∈ (auditOnePlain m events).conflicts → False) := by
  constructor
  · intro e he hday
    have hne : (m.parsedDates.filter fun d => d == e.startDay) ≠ [] :=
      List.ne_nil_of_mem (List.mem_filter.2 ⟨hday, by simp⟩)
    by_cases hc : (classifyPlain m e).1 = true
    · exact Or.inl ⟨(classifyPlain m e).2,
        mem_confirmedPlain.2 ⟨e, he, hne, hc, rfl⟩⟩
    · exact Or.inr ⟨(classifyPlain m e).2, mem_conflictsPlain.2
        ⟨e, he, hne, Bool.not_eq_true _ ▸ hc, rfl⟩⟩
  · intro e r r' hconf hconfl
    obtain ⟨e1, -, -, ht1, heq1⟩ := mem_confirmedPlain.1 hconf
    obtain ⟨e2, -, -, ht2, heq2⟩ := mem_conflictsPlain.1 hconfl
    simp only [MatchEntry.mk.injEq] at heq1 heq2
    rw [← heq1.2.1] at ht1
    rw [← heq2.2.1] at ht2
    rw [ht1] at ht2
    exact absurd ht2 (by simp)

/-- Witness for C2 at the concrete candidate `mC2ex` and its two same-day
events. -/
theorem c2_matcher_records_witness :
    (∃ r, MatchEntry.mk mC2ex e1C2ex r ∈
      (auditOnePlain mC2ex [e1C2ex, e2C2ex]).confirmedMeetings) ∨
    (∃ r, MatchEntry.mk mC2ex e1C2ex r ∈
      (auditOnePlain mC2ex [e1C2ex, e2C2ex]).conflicts) :=
  (c2_matcher_records mC2ex [e1C2ex, e2C2ex]).1 e1C2ex (by simp)
    (by with_unfolding_all decide)

/-- Counterexample to C2 as stated: with one confirming and one
same-day-different-time event, the matcher records BOTH a Confirmed entry
and a Conflict entry for the same candidate — it does not record only the
first Confirmed match. -/
theorem c2_confirm_and_conflict_counterexample :
    (auditOnePlain mC2ex [e1C2ex, e2C2ex]).confirmedMeetings =
      [MatchEntry.mk mC2ex e1C2ex "Time and date match"] ∧
    (auditOnePlain mC2ex [e1C2ex, e2C2ex]).conflicts =
      [MatchEntry.mk mC2ex e2C2ex "Same day, potentially conflicting time"] := by
  refine ⟨by with_unfolding_all decide, by with_unfolding_all decide⟩


/-- C1 (amended): end-to-end on "Let's meet tomorrow at 3" sent on a Monday
with the oracle disabled — the candidate's heuristic confidence is 0.85
(above the fallback threshold), its date resolves to Tuesday, and matching
against a Tuesday 15:00 event yields exactly one Confirmed record; but its
detail is "Date match, time unclear", because "at 3" produces no time token
(the time patterns require a colon or a meridiem suffix). -/
theorem c1_end_to_end :
    getDayJS mondayC1 = 1 ∧
    (detectMeetings mondayC1 [msgC1]).map Meeting.confidence = [17/20] ∧
    ((3 : ℚ)/10 < 17/20) ∧
    (detectMeetings mondayC1 [msgC1]).map Meeting.parsedDates =
      [[daysFromCivil 2025 9 16]] ∧
    (runDisabledPipeline mondayC1 [msgC1] [eventC1]).confirmedMeetings.map
      MatchEntry.reason = ["Date match, time unclear"] ∧
    (runDisabledPipeline mondayC1 [msgC1] [eventC1]).conflicts = [] ∧
    (runDisabledPipeline mondayC1 [msgC1] [eventC1]).missingEvents = [] := by
  refine ⟨by with_unfolding_all decide, by with_unfolding_all decide,
    by norm_num, by with_unfolding_all decide,
    by with_unfolding_all decide, by with_unfolding_all decide,
    by with_unfolding_all decide⟩

/-- Counterexample to C1 as stated: the produced record's detail is not the
time-and-date-match detail, and the loose substring time comparison does
NOT accept "3" against "15:00" ("15:00" contains no "3"); moreover no time
token is extracted from "at 3" at all. -/
theorem c1_detail_counterexample :
    timeMatchB "3" "15:00" = false ∧
    extractTimes "Let\x27s meet tomorrow at 3" = [] ∧
    (detectMeetings mondayC1 [msgC1]).map Meeting.detectedTime = [none] ∧
    (runDisabledPipeline mondayC1 [msgC1] [eventC1]).confirmedMeetings.map
      MatchEntry.reason ≠ ["Time and date match"] ∧
    ∀ en ∈ (runDisabledPipeline mondayC1 [msgC1] [eventC1]).confirmedMeetings,
      en.reason ≠ "Time and date match" ∧ en.reason ≠ "date and time match" := by
  refine ⟨by with_unfolding_all decide, by with_unfolding_all decide,
    by with_unfolding_all decide, by with_unfolding_all decide,
    by with_unfolding_all decide⟩

lemma conflictsPlain_meeting_eq {m : Meeting} {events : List CalendarEvent}
    {en : MatchEntry} (h : en ∈ (auditOnePlain m events).conflicts) :
    en.meeting = m := by
  obtain ⟨e, -, -, -, rfl⟩ := mem_conflictsPlain.1 h
  rfl

lemma missingPlain_cases (m : Meeting) (events : List CalendarEvent) :
    (auditOnePlain m events).missingEvents = [] ∨
    (auditOnePlain m events).missingEvents =
      [MissingEntry.mk m "High confidence meeting not found in calendar"] := by
  have h : (auditOnePlain m events).missingEvents =
      if !(entriesPlain m events).any (fun p => p.2.1) &&
         !(entriesPlain m events).any (fun p => !p.2.1) &&
         decide (m.confidence > 2/5) then
        [MissingEntry.mk m "High confidence meeting not found in calendar"]
      else [] := rfl
  rw [h]
  split
  · exact Or.inr rfl
  · exact Or.inl rfl

lemma missingPlain_meeting_eq {m : Meeting} {events : List CalendarEvent}
    {en : MissingEntry} (h : en ∈ (auditOnePlain m events).missingEvents) :
    en.meeting = m := by
  rcases missingPlain_cases m events with hc | hc <;> rw [hc] at h
  · exact absurd h (List.not_mem_nil en)
  · obtain rfl := List.mem_singleton.1 h
    rfl

lemma conflicts_meeting_mem {ms : List Meeting} {events : List CalendarEvent}
    {en : MatchEntry}
    (h : en ∈ (analyzeConflictsAndMissing ms events).conflicts) :
    en.meeting ∈ ms := by
  induction ms with
  | nil => simp [analyzeConflictsAndMissing] at h
  | cons m ms ih =>
    simp only [analyzeConflictsAndMissing, List.mem_append] at h
    rcases h with h | h
    · rw [conflictsPlain_meeting_eq h]
      exact List.mem_cons_self _ _
    · exact List.mem_cons_of_mem _ (ih h)

lemma missing_meeting_mem {ms : List Meeting} {events : List CalendarEvent}
    {en : MissingEntry}
    (h : en ∈ (analyzeConflictsAndMissing ms events).missingEvents) :
    en.meeting ∈ ms := by
  induction ms with
  | nil => simp [analyzeConflictsAndMissing] at h
  | cons m ms ih =>
    simp only [analyzeConflictsAndMissing, List.mem_append] at h
    rcases h with h | h
    · rw [missingPlain_meeting_eq h]
      exact List.mem_cons_self _ _
    · exact List.mem_cons_of_mem _ (ih h)

lemma conflicts_ts_sorted (ms : List Meeting) (events : List CalendarEvent)
    (hs : (ms.map Meeting.timestamp).Pairwise (· ≥ ·)) :
    ((analyzeConflictsAndMissing ms events).conflicts.map
      (fun en => en.meeting.timestamp)).Pairwise (· ≥ ·) := by
  induction ms with
  | nil => simp [analyzeConflictsAndMissing]
  | cons m ms ih =>
    simp only [List.map_cons, List.pairwise_cons] at hs
    simp only [analyzeConflictsAndMissing, List.map_append]
    rw [List.pairwise_append]
    refine ⟨?_, ih hs.2, ?_⟩
    · apply List.pairwise_of_forall_mem_list
      intro a ha b hb
      obtain ⟨ena, hena, rfl⟩ := List.mem_map.1 ha
      obtain ⟨enb, henb, rfl⟩ := List.mem_map.1 hb
      rw [conflictsPlain_meeting_eq hena, conflictsPlain_meeting_eq henb]
    · intro a ha b hb
      obtain ⟨ena, hena, rfl⟩ := List.mem_map.1 ha
      obtain ⟨enb, henb, rfl⟩ := List.mem_map.1 hb
      rw [conflictsPlain_meeting_eq hena]
      exact hs.1 _ (List.mem_map_of_mem _ (conflicts_meeting_mem henb))

lemma missing_ts_sorted (ms : List Meeting) (events : List CalendarEvent)
    (hs : (ms.map Meeting.timestamp).Pairwise (· ≥ ·)) :
    ((analyzeConflictsAndMissing ms events).missingEvents.map
      (fun en => en.meeting.timestamp)).Pairwise (· ≥ ·) := by
  induction ms with
  | nil => simp [analyzeConflictsAndMissing]
  | cons m ms ih =>
    simp only [List.map_cons, List.pairwise_cons] at hs
    simp only [analyzeConflictsAndMissing, List.map_append]
    rw [List.pairwise_append]
    refine ⟨?_, ih hs.2, ?_⟩
    · apply List.pairwise_of_forall_mem_list
      intro a ha b hb
      obtain ⟨ena, hena, rfl⟩ := List.mem_map.1 ha
      obtain ⟨enb, henb, rfl⟩ := List.mem_map.1 hb
      rw [missingPlain_meeting_eq hena, missingPlain_meeting_eq henb]
    · intro a ha b hb
      obtain ⟨ena, hena, rfl⟩ := List.mem_map.1 ha
      obtain ⟨enb, henb, rfl⟩ := List.mem_map.1 hb
      rw [missingPlain_meeting_eq hena]
      exact hs.1 _ (List.mem_map_of_mem _ (missing_meeting_mem henb))

lemma detect_ts_mem {today : Int} {msgs : List WAMessage} {c : Meeting}
    (h : c ∈ detectMeetings today msgs) :
    c.timestamp ∈ msgs.map WAMessage.timestamp := by
  obtain ⟨msg, hmsg, hc⟩ := List.mem_filterMap.1 h
  obtain ⟨-, -, -, -, -, -, hts⟩ := analyzeMessage_some_inv hc
  rw [hts]
  exact List.mem_map_of_mem _ hmsg

lemma detect_ts_sorted (today : Int) (msgs : List WAMessage)
    (hs : (msgs.map WAMessage.timestamp).Pairwise (· ≥ ·)) :
    ((detectMeetings today msgs).map Meeting.timestamp).Pairwise (· ≥ ·) := by
  induction msgs with
  | nil => simp [detectMeetings]
  | cons msg msgs ih =>
    simp only [List.map_cons, List.pairwise_cons] at hs
    have htail := ih hs.2
    simp only [detectMeetings, List.filterMap_cons]
    cases hal : analyzeMessage today msg with
    | none => exact htail
    | some c =>
      simp only [List.map_cons, List.pairwise_cons]
      refine ⟨?_, htail⟩
      intro b hb
      obtain ⟨c', hc', rfl⟩ := List.mem_map.1 hb
      obtain ⟨-, -, -, -, -, -, hts⟩ := analyzeMessage_some_inv hal
      rw [hts]
      exact hs.1 _ (detect_ts_mem hc')

/-- C9 (amended): the summary's conflict and missing detail lists are
capped to the top 3 entries while the reported counts are taken on the
uncapped lists; the shown entries follow the matcher's order, which is
DESCENDING by originating-message timestamp (newest first), because
`getRecentMessages` sorts newest-first and detection and matching preserve
that order. -/
theorem c9_summary_caps_order (meetings : List Meeting)
    (events : List CalendarEvent)
    (hs : (meetings.map Meeting.timestamp).Pairwise (· ≥ ·)) :
    (summaryShownConflicts (analyzeConflictsAndMissing meetings
      events)).length ≤ 3 ∧
    (summaryShownMissing (analyzeConflictsAndMissing meetings
      events)).length ≤ 3 ∧
    summaryConflictCount (analyzeConflictsAndMissing meetings events) =
      (analyzeConflictsAndMissing meetings events).conflicts.length ∧
    summaryMissingCount (analyzeConflictsAndMissing meetings events) =
      (analyzeConflictsAndMissing meetings events).missingEvents.length ∧
    ((summaryShownConflicts (analyzeConflictsAndMissing meetings
      events)).map (fun en => en.meeting.timestamp)).Pairwise (· ≥ ·) ∧
    ((summaryShownMissing (analyzeConflictsAndMissing meetings
      events)).map (fun en => en.meeting.timestamp)).Pairwise (· ≥ ·) ∧
    ∀ (today : Int) (msgs : List WAMessage),
      (msgs.map WAMessage.timestamp).Pairwise (· ≥ ·) →
      ((detectMeetings today msgs).map Meeting.timestamp).Pairwise (· ≥ ·) := by
  refine ⟨?_, ?_, rfl, rfl, ?_, ?_, detect_ts_sorted⟩
  · simp only [summaryShownConflicts, List.length_take]
    omega
  · simp only [summaryShownMissing, List.length_take]
    omega
  · exact List.Pairwise.sublist ((List.take_sublist _ _).map _)
      (conflicts_ts_sorted meetings events hs)
  · exact List.Pairwise.sublist ((List.take_sublist _ _).map _)
      (missing_ts_sorted meetings events hs)

/-- Witness for C9 on two descending-timestamp conflicting candidates. -/
theorem c9_summary_caps_order_witness :
    (summaryShownConflicts (analyzeConflictsAndMissing [mC9w1, mC9w2]
      [eventC9w])).length ≤ 3 ∧
    (summaryShownMissing (analyzeConflictsAndMissing [mC9w1, mC9w2]
      [eventC9w])).length ≤ 3 ∧
    summaryConflictCount (analyzeConflictsAndMissing [mC9w1, mC9w2]
      [eventC9w]) =
      (analyzeConflictsAndMissing [mC9w1, mC9w2] [eventC9w]).conflicts.length ∧
    summaryMissingCount (analyzeConflictsAndMissing [mC9w1, mC9w2]
      [eventC9w]) =
      (analyzeConflictsAndMissing [mC9w1, mC9w2]
        [eventC9w]).missingEvents.length ∧
    ((summaryShownConflicts (analyzeConflictsAndMissing [mC9w1, mC9w2]
      [eventC9w])).map (fun en => en.meeting.timestamp)).Pairwise (· ≥ ·) ∧
    ((summaryShownMissing (analyzeConflictsAndMissing [mC9w1, mC9w2]
      [eventC9w])).map (fun en => en.meeting.timestamp)).Pairwise (· ≥ ·) := by
  have h := c9_summary_caps_order [mC9w1, mC9w2] [eventC9w]
    (by with_unfolding_all decide)
  exact ⟨h.1, h.2.1, h.2.2.1, h.2.2.2.1, h.2.2.2.2.1, h.2.2.2.2.2.1⟩

/-- Counterexample to C9 as stated: running the pipeline on two messages
(after the newest-first sort of `getRecentMessages`) puts the newer
message's conflict excerpt FIRST — the shown timestamps are [200, 100],
which is not ascending. -/
theorem c9_descending_counterexample :
    ((summaryShownConflicts (analyzeConflictsAndMissing
      (detectMeetings 0 (sortMessagesDesc msgsC9)) [eventC9])).map
        (fun en => en.meeting.timestamp)) = [200, 100] ∧
    ¬ ((summaryShownConflicts (analyzeConflictsAndMissing
      (detectMeetings 0 (sortMessagesDesc msgsC9)) [eventC9])).map
        (fun en => en.meeting.timestamp)).Pairwise (· ≤ ·) := by
  refine ⟨by with_unfolding_all decide, by with_unfolding_all decide⟩

